import Mathlib

/-!
Verification of the doc2pages page-production pipeline.

The definitions below are shallow embeddings of the TypeScript sources:
`src/pipeline/exec.ts` (bounded-concurrency task executor),
`src/pipeline/extract.ts` (PDF render planner, layout chopper, region
extractor), `src/pipeline/image-dimensions.ts` (binary header parser),
`src/pipeline/process.ts`, `src/pipeline/manifest.ts` and `src/cli.ts`
(manifest assembly).  Machine integers are modelled as `Nat`/`Int`,
asynchronous operations as explicit outcome functions, and the
worker-pool scheduler as a nondeterministic step relation.
-/

set_option maxHeartbeats 1000000

namespace DocPages

-- ### Data model (src/types.ts)

/-- `PageInfo` from `src/types.ts`. -/
structure PageInfo where
  index : Nat
  file : String
  width : Int
  height : Int
deriving Repr, DecidableEq

/-- `PageError` from `src/types.ts`. -/
structure PageError where
  index : Nat
  error : String
deriving Repr, DecidableEq

/-- `Toolchain` from `src/types.ts`. -/
structure Toolchain where
  renderer : String
  version : String
deriving Repr, DecidableEq

/-- `Manifest` from `src/types.ts`. -/
structure Manifest where
  source : String
  pageCount : Nat
  dpi : Nat
  format : String
  pages : List PageInfo
  errors : List PageError
  toolchain : Toolchain
deriving Repr, DecidableEq

-- ### Chunking (src/pipeline/extract.ts, chunkPages)

/-- `PageChunk` from `src/pipeline/extract.ts`: a 1-based inclusive page range. -/
structure PageChunk where
  first : Nat
  last : Nat
deriving Repr, DecidableEq

/-- The loop body of `chunkPages`: iteration `i` emits a chunk of
`baseSize + (i < remainder ? 1 : 0)` pages starting at `start`; the third
argument counts the remaining iterations (`numChunks - i`). -/
def chunkPagesGo (baseSize remainder : Nat) : Nat → Nat → Nat → List PageChunk
  | _, _, 0 => []
  | i, start, k + 1 =>
    let size := baseSize + (if i < remainder then 1 else 0)
    ⟨start, start + size - 1⟩ :: chunkPagesGo baseSize remainder (i + 1) (start + size) k

/-- `chunkPages` from `src/pipeline/extract.ts`: split `[1, pageCount]` into
`min concurrency pageCount` contiguous chunks. -/
def chunkPages (pageCount concurrency : Nat) : List PageChunk :=
  let numChunks := min concurrency pageCount
  chunkPagesGo (pageCount / numChunks) (pageCount % numChunks) 0 1 numChunks

/-- The list of page numbers covered by a chunk. -/
def chunkSpan (c : PageChunk) : List Nat := List.range' c.first (c.last + 1 - c.first)

theorem chunkPagesGo_length (b r : Nat) :
    ∀ (k i s : Nat), (chunkPagesGo b r i s k).length = k := by
  intro k
  induction k with
  | zero => intro i s; rfl
  | succ k ih => intro i s; simp [chunkPagesGo, ih]

theorem chunkPagesGo_join (b r : Nat) (hb : 1 ≤ b) :
    ∀ (k i s : Nat),
      ((chunkPagesGo b r i s k).map chunkSpan).flatten
        = List.range' s (k * b + (min r (i + k) - min r i)) := by
  intro k
  induction k with
  | zero =>
      intro i s
      simp [chunkPagesGo]
  | succ k ih =>
      intro i s
      have hsz : 1 ≤ b + (if i < r then 1 else 0) := le_trans hb (Nat.le_add_right b _)
      have hspan : s + (b + (if i < r then 1 else 0)) - 1 + 1 - s
          = b + (if i < r then 1 else 0) := by omega
      have h1 : ((chunkPagesGo b r i s (k + 1)).map chunkSpan).flatten
          = List.range' s (b + (if i < r then 1 else 0))
              ++ ((chunkPagesGo b r (i + 1) (s + (b + (if i < r then 1 else 0))) k).map
                    chunkSpan).flatten := by
        simp [chunkPagesGo, chunkSpan, hspan]
      have hkb : (k + 1) * b = k * b + b := by ring
      have harith :
          (k * b + (min r (i + 1 + k) - min r (i + 1))) + (b + (if i < r then 1 else 0))
            = (k + 1) * b + (min r (i + (k + 1)) - min r i) := by
        have hx : i + 1 + k = i + (k + 1) := by omega
        rw [hx, hkb]
        rcases Nat.lt_or_ge i r with hir | hir
        · rw [if_pos hir]
          have e1 : min r i = i := Nat.min_eq_right (le_of_lt hir)
          have e2 : min r (i + 1) = i + 1 := Nat.min_eq_right hir
          have e3 : i + 1 ≤ min r (i + (k + 1)) := le_min hir (by omega)
          have e4 : min r (i + (k + 1)) ≤ r := min_le_left _ _
          rw [e1, e2]
          omega
        · rw [if_neg (Nat.not_lt.2 hir)]
          have e1 : min r i = r := Nat.min_eq_left hir
          have e2 : min r (i + 1) = r := Nat.min_eq_left (by omega)
          have e3 : r ≤ min r (i + (k + 1)) := le_min (le_refl r) (by omega)
          have e4 : min r (i + (k + 1)) ≤ r := min_le_left _ _
          rw [e1, e2]
          omega
      rw [h1, ih]
      have happ := List.range'_append s (b + (if i < r then 1 else 0))
        (k * b + (min r (i + 1 + k) - min r (i + 1))) 1
      simp only [one_mul] at happ
      rw [happ, harith]

theorem chunkPagesGo_size (b r : Nat) (hb : 1 ≤ b) :
    ∀ (k i s j : Nat) (c : PageChunk), (chunkPagesGo b r i s k)[j]? = some c →
      c.last + 1 - c.first = b + (if i + j < r then 1 else 0) := by
  intro k
  induction k with
  | zero =>
      intro i s j c hc
      simp [chunkPagesGo] at hc
  | succ k ih =>
      intro i s j c hc
      match j with
      | 0 =>
          simp [chunkPagesGo] at hc
          subst hc
          have hsz : 1 ≤ b + (if i < r then 1 else 0) := le_trans hb (Nat.le_add_right b _)
          simp only [Nat.add_zero]
          show s + (b + (if i < r then 1 else 0)) - 1 + 1 - s = b + (if i < r then 1 else 0)
          omega
      | j + 1 =>
          simp [chunkPagesGo] at hc
          have heq := ih (i + 1) (s + (b + (if i < r then 1 else 0))) j c hc
          have hx : i + 1 + j = i + (j + 1) := by omega
          rw [hx] at heq
          exact heq

theorem chunkPagesGo_chain (b r : Nat) (hb : 1 ≤ b) :
    ∀ (k i s : Nat),
      List.Chain' (fun a c => c.first = a.last + 1) (chunkPagesGo b r i s k) := by
  intro k
  induction k with
  | zero => intro i s; simp [chunkPagesGo]
  | succ k ih =>
      intro i s
      simp only [chunkPagesGo, List.chain'_cons']
      refine ⟨?_, ih _ _⟩
      intro c hc
      have hsz : 1 ≤ b + (if i < r then 1 else 0) := le_trans hb (Nat.le_add_right b _)
      match k with
      | 0 => simp [chunkPagesGo] at hc
      | k + 1 =>
          simp only [chunkPagesGo, List.head?_cons, Option.mem_def, Option.some.injEq] at hc
          subst hc
          show s + (b + (if i < r then 1 else 0))
              = s + (b + (if i < r then 1 else 0)) - 1 + 1
          omega

/-- C3: `chunkPages` returns exactly `min P pageCount` chunks; their spans,
concatenated in order, are exactly the pages `1..pageCount` (so the chunks are
contiguous, non-overlapping and cover the range); the first
`pageCount mod numChunks` chunks have `floor(pageCount/numChunks) + 1` pages
and the rest `floor(pageCount/numChunks)`; and
`chunkPages 10 3 = [{1,4},{5,7},{8,10}]`. -/
theorem chunkPages_spec (pageCount P : Nat) (hpc : 1 ≤ pageCount) (hP : 1 ≤ P) :
    (chunkPages pageCount P).length = min P pageCount ∧
    ((chunkPages pageCount P).map chunkSpan).flatten = List.range' 1 pageCount ∧
    List.Chain' (fun a c => c.first = a.last + 1) (chunkPages pageCount P) ∧
    (∀ (j : Nat) (c : PageChunk), (chunkPages pageCount P)[j]? = some c →
      c.last + 1 - c.first
        = pageCount / min P pageCount
            + (if j < pageCount % min P pageCount then 1 else 0)) ∧
    chunkPages 10 3 = [⟨1, 4⟩, ⟨5, 7⟩, ⟨8, 10⟩] := by
  have hn : 1 ≤ min P pageCount := le_min hP hpc
  have hnle : min P pageCount ≤ pageCount := min_le_right _ _
  have hb : 1 ≤ pageCount / min P pageCount := (Nat.one_le_div_iff hn).2 hnle
  refine ⟨?_, ?_, ?_, ?_, ?_⟩
  · simp only [chunkPages]
    rw [chunkPagesGo_length]
  · simp only [chunkPages]
    rw [chunkPagesGo_join _ _ hb]
    have hmlt : pageCount % min P pageCount < min P pageCount := Nat.mod_lt _ hn
    have h1 : min (pageCount % min P pageCount) (0 + min P pageCount)
        = pageCount % min P pageCount := by
      rw [Nat.zero_add]
      exact Nat.min_eq_left (le_of_lt hmlt)
    have h0 : min (pageCount % min P pageCount) 0 = 0 :=
      Nat.min_eq_right (Nat.zero_le _)
    rw [h1, h0, Nat.sub_zero, Nat.div_add_mod]
  · simp only [chunkPages]
    exact chunkPagesGo_chain _ _ hb _ _ _
  · intro j c hc
    simp only [chunkPages] at hc
    have heq := chunkPagesGo_size _ _ hb _ _ _ _ _ hc
    simpa using heq
  · decide

/-- Witness for C3 at `pageCount = 10`, `P = 3`. -/
theorem chunkPages_spec_witness :
    (1 ≤ (10 : Nat)) ∧ (1 ≤ (3 : Nat)) ∧
      ((chunkPages 10 3).map chunkSpan).flatten = List.range' 1 10 :=
  ⟨by decide, by decide, (chunkPages_spec 10 3 (by decide) (by decide)).2.1⟩

-- ### LayoutChopper merge pass (src/pipeline/extract.ts, chopPage)

/-- Region kinds from `src/pipeline/extract.ts`. -/
inductive RegionKind where
  | text
  | image
deriving Repr, DecidableEq

/-- `Region` from `src/pipeline/extract.ts`: pixel coordinates of a classified
page sub-area. -/
structure Region where
  x : Int
  y : Int
  width : Int
  height : Int
  kind : RegionKind
deriving Repr, DecidableEq

/-- The merge condition of `chopPage`: `prev.kind === 'text' &&
region.kind === 'text' && region.y - (prev.y + prev.height) < 80`. -/
def mergesWith (prev region : Region) : Bool :=
  prev.kind == RegionKind.text && region.kind == RegionKind.text &&
    decide (region.y - (prev.y + prev.height) < 80)

/-- The in-place bounding-union update of `chopPage`: `prev` takes the
bounding box of both regions and keeps its own kind. -/
def regionUnion (prev region : Region) : Region :=
  let minX := min prev.x region.x
  let minY := min prev.y region.y
  let maxRight := max (prev.x + prev.width) (region.x + region.width)
  let maxBottom := max (prev.y + prev.height) (region.y + region.height)
  { x := minX, y := minY, width := maxRight - minX, height := maxBottom - minY,
    kind := prev.kind }

/-- One iteration of the merge loop of `chopPage`: mutate the last pushed
region into the union, or push the current region. -/
def mergeStep (merged : List Region) (region : Region) : List Region :=
  match merged.getLast? with
  | some prev =>
      if mergesWith prev region then
        merged.dropLast ++ [regionUnion prev region]
      else
        merged ++ [region]
  | none => merged ++ [region]

/-- The merge pass of `chopPage` over the sorted region list. -/
def mergeRegions (regions : List Region) : List Region :=
  regions.foldl mergeStep []

/-- Recursive presentation of the merge loop, carrying the last pushed
region. -/
def mergeGo (prev : Region) : List Region → List Region
  | [] => [prev]
  | r :: rs =>
      if mergesWith prev r then mergeGo (regionUnion prev r) rs
      else prev :: mergeGo r rs

theorem foldl_mergeStep_eq (rs : List Region) :
    ∀ (acc : List Region) (prev : Region),
      rs.foldl mergeStep (acc ++ [prev]) = acc ++ mergeGo prev rs := by
  induction rs with
  | nil => intro acc prev; simp [mergeGo]
  | cons r rs ih =>
      intro acc prev
      simp only [List.foldl_cons]
      have hlast : (acc ++ [prev]).getLast? = some prev := by simp
      by_cases h : mergesWith prev r
      · have hstep : mergeStep (acc ++ [prev]) r = acc ++ [regionUnion prev r] := by
          simp [mergeStep, hlast, h]
        rw [hstep, ih]
        simp [mergeGo, h]
      · have hstep : mergeStep (acc ++ [prev]) r = (acc ++ [prev]) ++ [r] := by
          simp [mergeStep, hlast, h]
        rw [hstep, ih ((acc ++ [prev])) r]
        simp [mergeGo, h]

theorem mergeRegions_nil : mergeRegions [] = [] := rfl

theorem mergeRegions_cons (r : Region) (rs : List Region) :
    mergeRegions (r :: rs) = mergeGo r rs := by
  have h0 : mergeStep [] r = [] ++ [r] := rfl
  rw [mergeRegions, List.foldl_cons, h0, foldl_mergeStep_eq]
  simp

/-- Sortedness by top coordinate, as established by the reading-order sort of
`chopPage` immediately before the merge loop. -/
def ySorted (rs : List Region) : Prop :=
  List.Chain' (fun a b => a.y ≤ b.y) rs

/-- No adjacent pair of the list is mergeable by the `chopPage` rule. -/
def noMergeableAdjacent (rs : List Region) : Prop :=
  List.Chain' (fun a b =>
    ¬(a.kind = RegionKind.text ∧ b.kind = RegionKind.text ∧
        b.y - (a.y + a.height) < 80)) rs

theorem mergesWith_iff (a b : Region) :
    mergesWith a b = true ↔
      (a.kind = RegionKind.text ∧ b.kind = RegionKind.text ∧
        b.y - (a.y + a.height) < 80) := by
  simp [mergesWith, and_assoc]

theorem mergeGo_head (rs : List Region) :
    ∀ prev : Region, ySorted (prev :: rs) →
      ∃ c, (mergeGo prev rs).head? = some c ∧ c.y = prev.y ∧ c.kind = prev.kind := by
  induction rs with
  | nil => intro prev _; exact ⟨prev, rfl, rfl, rfl⟩
  | cons r rs ih =>
      intro prev hs
      have hyr : prev.y ≤ r.y := (List.chain'_cons.1 hs).1
      have hs' : ySorted (r :: rs) := (List.chain'_cons.1 hs).2
      by_cases h : mergesWith prev r
      · have hu : ySorted (regionUnion prev r :: rs) := by
          rcases rs with _ | ⟨r2, rs2⟩
          · simp [ySorted]
          · have h2 : r.y ≤ r2.y := (List.chain'_cons.1 hs').1
            refine List.chain'_cons.2 ⟨?_, (List.chain'_cons.1 hs').2⟩
            show (regionUnion prev r).y ≤ r2.y
            simp only [regionUnion]
            omega
        obtain ⟨c, hc, hcy, hck⟩ := ih (regionUnion prev r) hu
        refine ⟨c, ?_, ?_, ?_⟩
        · simpa [mergeGo, h] using hc
        · rw [hcy]; simp only [regionUnion]; omega
        · rw [hck]; rfl
      · exact ⟨prev, by simp [mergeGo, h], rfl, rfl⟩

theorem mergeGo_chain (rs : List Region) :
    ∀ prev : Region, ySorted (prev :: rs) →
      noMergeableAdjacent (mergeGo prev rs) := by
  induction rs with
  | nil => intro prev _; simp [mergeGo, noMergeableAdjacent]
  | cons r rs ih =>
      intro prev hs
      have hyr : prev.y ≤ r.y := (List.chain'_cons.1 hs).1
      have hs' : ySorted (r :: rs) := (List.chain'_cons.1 hs).2
      by_cases h : mergesWith prev r
      · have hu : ySorted (regionUnion prev r :: rs) := by
          rcases rs with _ | ⟨r2, rs2⟩
          · simp [ySorted]
          · have h2 : r.y ≤ r2.y := (List.chain'_cons.1 hs').1
            refine List.chain'_cons.2 ⟨?_, (List.chain'_cons.1 hs').2⟩
            show (regionUnion prev r).y ≤ r2.y
            simp only [regionUnion]
            omega
        have := ih (regionUnion prev r) hu
        simpa [mergeGo, h] using this
      · have hchain := ih r hs'
        obtain ⟨c, hc, hcy, hck⟩ := mergeGo_head rs r hs'
        have hnm : ¬(prev.kind = RegionKind.text ∧ c.kind = RegionKind.text ∧
            c.y - (prev.y + prev.height) < 80) := by
          intro ⟨h1, h2, h3⟩
          apply h
          rw [mergesWith_iff]
          exact ⟨h1, by rwa [← hck], by rwa [← hcy]⟩
        rw [mergeGo]
        rw [if_neg h]
        refine List.chain'_cons'.2 ⟨?_, hchain⟩
        intro c' hc'
        rw [hc] at hc'
        cases hc'
        exact hnm

theorem mergeGo_fixed (rs : List Region) :
    ∀ prev : Region, noMergeableAdjacent (prev :: rs) →
      mergeGo prev rs = prev :: rs := by
  induction rs with
  | nil => intro prev _; rfl
  | cons r rs ih =>
      intro prev hs
      have h1 : ¬(prev.kind = RegionKind.text ∧ r.kind = RegionKind.text ∧
          r.y - (prev.y + prev.height) < 80) := (List.chain'_cons.1 hs).1
      have h2 : noMergeableAdjacent (r :: rs) := (List.chain'_cons.1 hs).2
      have h : ¬ mergesWith prev r := by
        rw [Bool.not_eq_true, ← Bool.not_eq_true, mergesWith_iff]
        exact h1
      rw [mergeGo, if_neg h, ih r h2]

theorem mergeGo_filter_image (rs : List Region) :
    ∀ prev : Region,
      (mergeGo prev rs).filter (fun r => r.kind == RegionKind.image)
        = (prev :: rs).filter (fun r => r.kind == RegionKind.image) := by
  induction rs with
  | nil => intro prev; rfl
  | cons r rs ih =>
      intro prev
      by_cases h : mergesWith prev r
      · have hm := (mergesWith_iff prev r).1 h
        have hpk : prev.kind = RegionKind.text := hm.1
        have hrk : r.kind = RegionKind.text := hm.2.1
        have huk : (regionUnion prev r).kind = RegionKind.text := hpk
        rw [mergeGo, if_pos h, ih (regionUnion prev r)]
        simp [List.filter_cons, huk, hpk, hrk]
      · rw [mergeGo, if_neg h]
        simp only [List.filter_cons]
        rw [ih r]
        simp only [List.filter_cons]

/-- C6: in the merge pass of `chopPage`, a consecutive pair of text regions
with a vertical gap strictly below 80 pixels is replaced by its bounding
union; any other consecutive pair (gap of 80 or more, or either region not of
kind text) is left as two regions; and regions of kind image pass through the
merge pass unchanged, never merged with anything. -/
theorem chopPage_merge_rule :
    (∀ a b : Region, a.kind = RegionKind.text → b.kind = RegionKind.text →
        b.y - (a.y + a.height) < 80 → mergeRegions [a, b] = [regionUnion a b]) ∧
    (∀ a b : Region,
        ¬(a.kind = RegionKind.text ∧ b.kind = RegionKind.text ∧
            b.y - (a.y + a.height) < 80) →
        mergeRegions [a, b] = [a, b]) ∧
    (∀ rs : List Region,
        (mergeRegions rs).filter (fun r => r.kind == RegionKind.image)
          = rs.filter (fun r => r.kind == RegionKind.image)) := by
  refine ⟨?_, ?_, ?_⟩
  · intro a b h1 h2 h3
    have h : mergesWith a b = true := (mergesWith_iff a b).2 ⟨h1, h2, h3⟩
    rw [mergeRegions_cons, mergeGo, if_pos h]
    rfl
  · intro a b hn
    have h : ¬ mergesWith a b := by
      rw [Bool.not_eq_true, ← Bool.not_eq_true, mergesWith_iff]
      exact hn
    rw [mergeRegions_cons, mergeGo, if_neg h]
    rfl
  · intro rs
    rcases rs with _ | ⟨r, rs⟩
    · rfl
    · rw [mergeRegions_cons, mergeGo_filter_image]

/-- Witness for C6: a 79-pixel gap between two text regions merges, an
80-pixel gap does not, and an image region is not merged even at a 79-pixel
gap. -/
theorem chopPage_merge_rule_witness :
    mergeRegions [⟨0, 0, 100, 100, RegionKind.text⟩, ⟨0, 179, 100, 50, RegionKind.text⟩]
        = [regionUnion ⟨0, 0, 100, 100, RegionKind.text⟩ ⟨0, 179, 100, 50, RegionKind.text⟩] ∧
    mergeRegions [⟨0, 0, 100, 100, RegionKind.text⟩, ⟨0, 180, 100, 50, RegionKind.text⟩]
        = [⟨0, 0, 100, 100, RegionKind.text⟩, ⟨0, 180, 100, 50, RegionKind.text⟩] ∧
    mergeRegions [⟨0, 0, 100, 100, RegionKind.image⟩, ⟨0, 179, 100, 50, RegionKind.text⟩]
        = [⟨0, 0, 100, 100, RegionKind.image⟩, ⟨0, 179, 100, 50, RegionKind.text⟩] :=
  ⟨chopPage_merge_rule.1 _ _ rfl rfl (by decide),
   chopPage_merge_rule.2.1 _ _ (by decide),
   chopPage_merge_rule.2.1 _ _ (by decide)⟩

/-- C10: on a region list sorted by top coordinate (as produced by the
reading-order sort of `chopPage`), the merge pass is exhaustive: its output
has no two consecutive text regions with a vertical gap strictly below 80
pixels, and running the merge pass again on its own output is the identity. -/
theorem chopPage_merge_exhaustive (rs : List Region) (hs : ySorted rs) :
    noMergeableAdjacent (mergeRegions rs) ∧
    mergeRegions (mergeRegions rs) = mergeRegions rs := by
  rcases rs with _ | ⟨r, rs⟩
  · exact ⟨trivial, rfl⟩
  · rw [mergeRegions_cons]
    have hchain := mergeGo_chain rs r hs
    refine ⟨hchain, ?_⟩
    rcases hgo : mergeGo r rs with _ | ⟨c, cs⟩
    · rfl
    · rw [mergeRegions_cons]
      rw [hgo] at hchain
      exact mergeGo_fixed cs c hchain

/-- Witness for C10 on a concrete sorted three-region page. -/
theorem chopPage_merge_exhaustive_witness :
    ySorted [⟨0, 0, 100, 100, RegionKind.text⟩, ⟨0, 180, 100, 50, RegionKind.text⟩,
        ⟨0, 260, 100, 40, RegionKind.image⟩] ∧
    mergeRegions (mergeRegions [⟨0, 0, 100, 100, RegionKind.text⟩,
        ⟨0, 180, 100, 50, RegionKind.text⟩, ⟨0, 260, 100, 40, RegionKind.image⟩])
      = mergeRegions [⟨0, 0, 100, 100, RegionKind.text⟩,
          ⟨0, 180, 100, 50, RegionKind.text⟩, ⟨0, 260, 100, 40, RegionKind.image⟩] :=
  ⟨by simp only [ySorted, List.chain'_cons, List.chain'_singleton]; norm_num,
   (chopPage_merge_exhaustive _
     (by simp only [ySorted, List.chain'_cons, List.chain'_singleton]; norm_num)).2⟩

-- ### TaskExecutor (src/pipeline/exec.ts, batchExec)

/-- The status of one worker promise of `batchExec`: in the claim loop,
awaiting `fn` on a claimed index, resolved after leaving the loop, or
rejected because `fn` rejected. -/
inductive WorkerState (E : Type) where
  | idle
  | running (index : Nat)
  | done
  | failed (e : E)
deriving Repr, DecidableEq

/-- The shared state of one `batchExec` invocation: the shared claim cursor
`nextIndex`, the output array `results` (`none` = not yet stored), and the
status of each of the `min concurrency items.length` workers. -/
structure ExecPoolState (R E : Type) where
  nextIndex : Nat
  results : List (Option R)
  workers : List (WorkerState E)
deriving Repr, DecidableEq

/-- One scheduler step of `batchExec`.  The read-and-increment of the shared
cursor is synchronous JavaScript, hence one atomic step; everything else can
interleave arbitrarily.  `fn` models the per-item asynchronous operation by
its eventual outcome. -/
inductive ExecStep {T R E : Type} (items : List T) (fn : T → Except E R) :
    ExecPoolState R E → ExecPoolState R E → Prop where
  | claim (s : ExecPoolState R E) (w : Nat)
      (hw : s.workers[w]? = some WorkerState.idle)
      (hn : s.nextIndex < items.length) :
      ExecStep items fn s
        { nextIndex := s.nextIndex + 1, results := s.results,
          workers := s.workers.set w (WorkerState.running s.nextIndex) }
  | finish (s : ExecPoolState R E) (w : Nat)
      (hw : s.workers[w]? = some WorkerState.idle)
      (hn : items.length ≤ s.nextIndex) :
      ExecStep items fn s { s with workers := s.workers.set w WorkerState.done }
  | resolve (s : ExecPoolState R E) (w i : Nat) (x : T) (r : R)
      (hw : s.workers[w]? = some (WorkerState.running i))
      (hx : items[i]? = some x) (hr : fn x = Except.ok r) :
      ExecStep items fn s
        { s with results := s.results.set i (some r),
                 workers := s.workers.set w WorkerState.idle }
  | reject (s : ExecPoolState R E) (w i : Nat) (x : T) (e : E)
      (hw : s.workers[w]? = some (WorkerState.running i))
      (hx : items[i]? = some x) (hr : fn x = Except.error e) :
      ExecStep items fn s
        { s with workers := s.workers.set w (WorkerState.failed e) }

/-- The state of `batchExec` right after spawning
`min concurrency items.length` workers. -/
def execInit (R E : Type) (itemsLen C : Nat) : ExecPoolState R E :=
  { nextIndex := 0, results := List.replicate itemsLen none,
    workers := List.replicate (min C itemsLen) WorkerState.idle }

/-- All interleavings of one `batchExec items fn C` invocation. -/
def ExecReachable {T R E : Type} (items : List T) (fn : T → Except E R) (C : Nat)
    (s : ExecPoolState R E) : Prop :=
  Relation.ReflTransGen (ExecStep items fn) (execInit R E items.length C) s

/-- `Promise.all` resolves, and `batchExec` returns `results`, exactly when
every worker promise has resolved. -/
def ExecCompleted {R E : Type} (s : ExecPoolState R E) : Prop :=
  ∀ w ∈ s.workers, w = WorkerState.done

/-- A worker promise has rejected with `e`: `Promise.all`, and with it the
promise returned by `batchExec`, rejects with `e` — the error reaches the
caller. -/
def ExecRejected {R E : Type} (s : ExecPoolState R E) (e : E) : Prop :=
  ∃ w : Nat, s.workers[w]? = some (WorkerState.failed e)

theorem getElem?_some_lt {α : Type} {l : List α} {i : Nat} {a : α}
    (h : l[i]? = some a) : i < l.length := by
  by_contra hc
  rw [List.getElem?_eq_none (by omega)] at h
  cases h

/-- Inductive invariant of the `batchExec` pool. -/
structure ExecInv {T R E : Type} (items : List T) (fn : T → Except E R) (C : Nat)
    (s : ExecPoolState R E) : Prop where
  lenResults : s.results.length = items.length
  lenWorkers : s.workers.length = min C items.length
  nextLe : s.nextIndex ≤ items.length
  resultsOk : ∀ (i : Nat) (r : R), s.results[i]? = some (some r) →
      ∃ x, items[i]? = some x ∧ fn x = Except.ok r
  claimed : ∀ i : Nat, i < s.nextIndex →
      (∃ r : R, s.results[i]? = some (some r)) ∨
      (∃ w : Nat, s.workers[w]? = some (WorkerState.running i)) ∨
      (∃ (w : Nat) (e : E), s.workers[w]? = some (WorkerState.failed e))
  doneNext : ∀ w : Nat, s.workers[w]? = some WorkerState.done →
      items.length ≤ s.nextIndex
  runningLt : ∀ (w i : Nat), s.workers[w]? = some (WorkerState.running i) →
      i < items.length

theorem execInv_init {T R E : Type} (items : List T) (fn : T → Except E R)
    (C : Nat) : ExecInv items fn C (execInit R E items.length C) := by
  constructor
  · simp [execInit]
  · simp [execInit]
  · simp [execInit]
  · intro i r h
    simp only [execInit, List.getElem?_replicate] at h
    split at h
    · simp at h
    · cases h
  · intro i hi
    simp only [execInit] at hi
    omega
  · intro w hw
    simp only [execInit, List.getElem?_replicate] at hw
    split at hw
    · simp at hw
    · cases hw
  · intro w i hw
    simp only [execInit, List.getElem?_replicate] at hw
    split at hw
    · simp at hw
    · cases hw

theorem execInv_step {T R E : Type} {items : List T} {fn : T → Except E R}
    {C : Nat} {s s' : ExecPoolState R E} (hinv : ExecInv items fn C s)
    (hstep : ExecStep items fn s s') : ExecInv items fn C s' := by
  obtain ⟨hlr, hlw, hnl, hok, hcl, hdn, hrl⟩ := hinv
  cases hstep with
  | claim w hw hn =>
      have hwlt : w < s.workers.length := getElem?_some_lt hw
      refine ⟨hlr, ?_, ?_, hok, ?_, ?_, ?_⟩
      · rw [List.length_set]; exact hlw
      · show s.nextIndex + 1 ≤ items.length
        omega
      · intro i hi
        have hi2 : i < s.nextIndex + 1 := hi
        rcases Nat.lt_or_ge i s.nextIndex with hi' | hi'
        · rcases hcl i hi' with h1 | ⟨w', hw'⟩ | ⟨w', e, hw'⟩
          · exact Or.inl h1
          · refine Or.inr (Or.inl ⟨w', ?_⟩)
            by_cases hww : w = w'
            · subst hww; rw [hw] at hw'; simp at hw'
            · rw [List.getElem?_set_ne hww]; exact hw'
          · refine Or.inr (Or.inr ⟨w', e, ?_⟩)
            by_cases hww : w = w'
            · subst hww; rw [hw] at hw'; simp at hw'
            · rw [List.getElem?_set_ne hww]; exact hw'
        · have hieq : i = s.nextIndex := by omega
          subst hieq
          exact Or.inr (Or.inl ⟨w, List.getElem?_set_eq_of_lt _ hwlt⟩)
      · intro w' hw'
        by_cases hww : w = w'
        · subst hww
          rw [List.getElem?_set_eq_of_lt _ hwlt] at hw'
          simp at hw'
        · rw [List.getElem?_set_ne hww] at hw'
          exact le_trans (hdn w' hw') (Nat.le_succ _)
      · intro w' i hw'
        by_cases hww : w = w'
        · subst hww
          rw [List.getElem?_set_eq_of_lt _ hwlt] at hw'
          have hieq : s.nextIndex = i := by simpa using hw'
          omega
        · rw [List.getElem?_set_ne hww] at hw'
          exact hrl w' i hw'
  | finish w hw hn =>
      have hwlt : w < s.workers.length := getElem?_some_lt hw
      refine ⟨hlr, ?_, hnl, hok, ?_, ?_, ?_⟩
      · rw [List.length_set]; exact hlw
      · intro i hi
        rcases hcl i hi with h1 | ⟨w', hw'⟩ | ⟨w', e, hw'⟩
        · exact Or.inl h1
        · refine Or.inr (Or.inl ⟨w', ?_⟩)
          by_cases hww : w = w'
          · subst hww; rw [hw] at hw'; simp at hw'
          · rw [List.getElem?_set_ne hww]; exact hw'
        · refine Or.inr (Or.inr ⟨w', e, ?_⟩)
          by_cases hww : w = w'
          · subst hww; rw [hw] at hw'; simp at hw'
          · rw [List.getElem?_set_ne hww]; exact hw'
      · intro w' hw'
        by_cases hww : w = w'
        · subst hww; exact hn
        · rw [List.getElem?_set_ne hww] at hw'
          exact hdn w' hw'
      · intro w' i hw'
        by_cases hww : w = w'
        · subst hww
          rw [List.getElem?_set_eq_of_lt _ hwlt] at hw'
          simp at hw'
        · rw [List.getElem?_set_ne hww] at hw'
          exact hrl w' i hw'
  | resolve w i x r hw hx hr =>
      have hwlt : w < s.workers.length := getElem?_some_lt hw
      have hilt : i < items.length := hrl w i hw
      have hirl : i < s.results.length := by rw [hlr]; exact hilt
      refine ⟨?_, ?_, hnl, ?_, ?_, ?_, ?_⟩
      · rw [List.length_set]; exact hlr
      · rw [List.length_set]; exact hlw
      · intro i' r' hres
        by_cases hii : i = i'
        · subst hii
          rw [List.getElem?_set_eq_of_lt _ hirl] at hres
          have : r = r' := by simpa using hres
          subst this
          exact ⟨x, hx, hr⟩
        · rw [List.getElem?_set_ne hii] at hres
          exact hok i' r' hres
      · intro i' hi'
        by_cases hii : i = i'
        · subst hii
          exact Or.inl ⟨r, List.getElem?_set_eq_of_lt _ hirl⟩
        · rcases hcl i' hi' with h1 | ⟨w', hw'⟩ | ⟨w', e, hw'⟩
          · obtain ⟨r', hr'⟩ := h1
            exact Or.inl ⟨r', by rw [List.getElem?_set_ne hii]; exact hr'⟩
          · by_cases hww : w = w'
            · subst hww
              rw [hw] at hw'
              have : i = i' := by simpa using hw'
              exact absurd this hii
            · exact Or.inr (Or.inl ⟨w', by rw [List.getElem?_set_ne hww]; exact hw'⟩)
          · by_cases hww : w = w'
            · subst hww; rw [hw] at hw'; simp at hw'
            · exact Or.inr (Or.inr ⟨w', e, by rw [List.getElem?_set_ne hww]; exact hw'⟩)
      · intro w' hw'
        by_cases hww : w = w'
        · subst hww
          rw [List.getElem?_set_eq_of_lt _ hwlt] at hw'
          simp at hw'
        · rw [List.getElem?_set_ne hww] at hw'
          exact hdn w' hw'
      · intro w' i' hw'
        by_cases hww : w = w'
        · subst hww
          rw [List.getElem?_set_eq_of_lt _ hwlt] at hw'
          simp at hw'
        · rw [List.getElem?_set_ne hww] at hw'
          exact hrl w' i' hw'
  | reject w i x e hw hx hr =>
      have hwlt : w < s.workers.length := getElem?_some_lt hw
      refine ⟨hlr, ?_, hnl, hok, ?_, ?_, ?_⟩
      · rw [List.length_set]; exact hlw
      · intro i' _
        exact Or.inr (Or.inr ⟨w, e, List.getElem?_set_eq_of_lt _ hwlt⟩)
      · intro w' hw'
        by_cases hww : w = w'
        · subst hww
          rw [List.getElem?_set_eq_of_lt _ hwlt] at hw'
          simp at hw'
        · rw [List.getElem?_set_ne hww] at hw'
          exact hdn w' hw'
      · intro w' i' hw'
        by_cases hww : w = w'
        · subst hww
          rw [List.getElem?_set_eq_of_lt _ hwlt] at hw'
          simp at hw'
        · rw [List.getElem?_set_ne hww] at hw'
          exact hrl w' i' hw'

theorem execInv_reachable {T R E : Type} (items : List T) (fn : T → Except E R)
    (C : Nat) (s : ExecPoolState R E) (h : ExecReachable items fn C s) :
    ExecInv items fn C s := by
  induction h with
  | refl => exact execInv_init items fn C
  | tail _ hstep ih => exact execInv_step ih hstep

theorem execNoFailed_reachable {T R E : Type} (items : List T)
    (fn : T → Except E R) (hok : ∀ (t : T) (e : E), fn t ≠ Except.error e)
    (C : Nat) (s : ExecPoolState R E) (h : ExecReachable items fn C s) :
    ∀ (w : Nat) (e : E), s.workers[w]? ≠ some (WorkerState.failed e) := by
  induction h with
  | refl =>
      intro w e hw
      simp only [execInit, List.getElem?_replicate] at hw
      split at hw
      · simp at hw
      · cases hw
  | tail _ hstep ih =>
      intro w' e' hw'
      cases hstep with
      | claim w hw hn =>
          by_cases hww : w = w'
          · subst hww
            rw [List.getElem?_set_eq_of_lt _ (getElem?_some_lt hw)] at hw'
            simp at hw'
          · rw [List.getElem?_set_ne hww] at hw'
            exact ih w' e' hw'
      | finish w hw hn =>
          by_cases hww : w = w'
          · subst hww
            rw [List.getElem?_set_eq_of_lt _ (getElem?_some_lt hw)] at hw'
            simp at hw'
          · rw [List.getElem?_set_ne hww] at hw'
            exact ih w' e' hw'
      | resolve w i x r hw hx hr =>
          by_cases hww : w = w'
          · subst hww
            rw [List.getElem?_set_eq_of_lt _ (getElem?_some_lt hw)] at hw'
            simp at hw'
          · rw [List.getElem?_set_ne hww] at hw'
            exact ih w' e' hw'
      | reject w i x e hw hx hr =>
          exact absurd hr (hok x e)

/-- C1: for every input list, every per-item operation (modelled by the value
it eventually resolves to), and every concurrency limit `C ≥ 1`, whenever a
`batchExec` run completes (every worker promise resolved), the result array
has exactly one entry per input and the entry at position `i` is the outcome
of the operation applied to input `i` — for every interleaving of workers,
i.e. regardless of the order in which operations complete. -/
theorem batchExec_preserves_order {T R : Type} (items : List T) (fn : T → R)
    (C : Nat) (hC : 1 ≤ C) (s : ExecPoolState R Empty)
    (hre : ExecReachable items (fun t => Except.ok (fn t)) C s)
    (hco : ExecCompleted s) :
    s.results.length = items.length ∧
      ∀ (i : Nat) (x : T), items[i]? = some x →
        s.results[i]? = some (some (fn x)) := by
  obtain ⟨hlr, hlw, hnl, hok, hcl, hdn, hrl⟩ := execInv_reachable _ _ _ _ hre
  refine ⟨hlr, ?_⟩
  intro i x hx
  have hiN : i < items.length := getElem?_some_lt hx
  have hwpos : 0 < s.workers.length := by
    rw [hlw]
    exact lt_min hC (by omega)
  obtain ⟨w0, hw0⟩ : ∃ w0, s.workers[0]? = some w0 :=
    ⟨_, List.getElem?_eq_getElem hwpos⟩
  have hdone : w0 = WorkerState.done := hco w0 (List.getElem?_mem hw0)
  subst hdone
  have hnext : items.length ≤ s.nextIndex := hdn 0 hw0
  rcases hcl i (by omega) with ⟨r, hr⟩ | ⟨w', hw'⟩ | ⟨w', e, hw'⟩
  · obtain ⟨x', hx', hfx⟩ := hok i r hr
    rw [hx] at hx'
    have hxx : x = x' := Option.some.inj hx'
    subst hxx
    have hrr : fn x = r := by simpa using hfx
    rw [hr, hrr]
  · have hcontra := hco _ (List.getElem?_mem hw')
    simp at hcontra
  · exact e.elim

/-- Witness for C1: a completed run over the one-item list `[2]` with the
operation `t + 1` and concurrency 1, with the explicit interleaving
claim-resolve-finish. -/
theorem batchExec_preserves_order_witness :
    (1 ≤ 1) ∧
      ((⟨1, [some 3], [WorkerState.done]⟩ : ExecPoolState Nat Empty).results.length
          = ([2] : List Nat).length ∧
        ∀ (i : Nat) (x : Nat), ([2] : List Nat)[i]? = some x →
          (⟨1, [some 3], [WorkerState.done]⟩ : ExecPoolState Nat Empty).results[i]?
            = some (some (x + 1))) := by
  refine ⟨by decide,
    batchExec_preserves_order [2] (fun t => t + 1) 1 (by decide) _ ?_ ?_⟩
  · refine Relation.ReflTransGen.head (ExecStep.claim _ 0 rfl (by decide)) ?_
    refine Relation.ReflTransGen.head (ExecStep.resolve _ 0 0 2 3 rfl rfl rfl) ?_
    refine Relation.ReflTransGen.head (ExecStep.finish _ 0 rfl (by decide)) ?_
    exact Relation.ReflTransGen.refl
  · intro w hw
    simpa using hw

/-- Counterexample to C7 as stated: `batchExec` does not catch a rejected
operation.  The worker awaits `fn(items[index])` with no try/catch, so its
promise rejects, `Promise.all` rejects, and the error is thrown past the
executor boundary to the caller.  Concretely, running `batchExec` over the
one-item list with an operation that rejects with "boom" reaches a state
whose pool has rejected with "boom". -/
theorem batchExec_rejection_escapes :
    ExecReachable [()] (fun _ => (Except.error "boom" : Except String Unit)) 1
        ⟨1, [none], [WorkerState.failed "boom"]⟩ ∧
    ExecRejected
      (⟨1, [none], [WorkerState.failed "boom"]⟩ : ExecPoolState Unit String)
      "boom" := by
  constructor
  · refine Relation.ReflTransGen.head (ExecStep.claim _ 0 rfl (by decide)) ?_
    refine Relation.ReflTransGen.head
      (ExecStep.reject _ 0 0 () "boom" rfl rfl rfl) ?_
    exact Relation.ReflTransGen.refl
  · exact ⟨0, rfl⟩

/-- C7 amended: `batchExec` itself propagates a rejection of its per-item
operation to the caller; the error capture happens at every call site, which
wraps the operation in a try/catch that always resolves with a
success-flagged value.  For such never-rejecting operations, no rejected
state is reachable (no error crosses the executor boundary, and no item's
failure can abort its siblings), and on completion every item's outcome is
captured independently at its own position. -/
theorem batchExec_wrapped_no_escape {T R E : Type} (items : List T)
    (fn : T → Except E R) (hok : ∀ (t : T) (e : E), fn t ≠ Except.error e)
    (C : Nat) (s : ExecPoolState R E) (hre : ExecReachable items fn C s) :
    (∀ e : E, ¬ ExecRejected s e) ∧
      (1 ≤ C → ExecCompleted s →
        ∀ (i : Nat) (x : T), items[i]? = some x →
          ∃ r : R, fn x = Except.ok r ∧ s.results[i]? = some (some r)) := by
  have hnf := execNoFailed_reachable items fn hok C s hre
  constructor
  · intro e he
    obtain ⟨w, hw⟩ := he
    exact hnf w e hw
  · intro hC hco i x hx
    obtain ⟨hlr, hlw, hnl, hok', hcl, hdn, hrl⟩ := execInv_reachable _ _ _ _ hre
    have hiN : i < items.length := getElem?_some_lt hx
    have hwpos : 0 < s.workers.length := by
      rw [hlw]
      exact lt_min hC (by omega)
    obtain ⟨w0, hw0⟩ : ∃ w0, s.workers[0]? = some w0 :=
      ⟨_, List.getElem?_eq_getElem hwpos⟩
    have hdone : w0 = WorkerState.done := hco w0 (List.getElem?_mem hw0)
    subst hdone
    have hnext : items.length ≤ s.nextIndex := hdn 0 hw0
    rcases hcl i (by omega) with ⟨r, hr⟩ | ⟨w', hw'⟩ | ⟨w', e, hw'⟩
    · obtain ⟨x', hx', hfx⟩ := hok' i r hr
      rw [hx] at hx'
      have hxx : x = x' := Option.some.inj hx'
      subst hxx
      exact ⟨r, hfx, hr⟩
    · have hcontra := hco _ (List.getElem?_mem hw')
      simp at hcontra
    · exact absurd hw' (hnf w' e)

/-- Witness for the amended C7: a call-site-style wrapped operation (always
resolving with a success value) on a one-item batch; no rejection is
reachable. -/
theorem batchExec_wrapped_no_escape_witness :
    (∀ (t : Unit) (e : String),
        (fun _ : Unit => (Except.ok 7 : Except String Nat)) t ≠ Except.error e) ∧
      ∀ e : String,
        ¬ ExecRejected
            (⟨1, [some 7], [WorkerState.done]⟩ : ExecPoolState Nat String) e := by
  have hok : ∀ (t : Unit) (e : String),
      (fun _ : Unit => (Except.ok 7 : Except String Nat)) t ≠ Except.error e := by
    intro t e h
    simp at h
  refine ⟨hok, (batchExec_wrapped_no_escape [()] _ hok 1 _ ?_).1⟩
  refine Relation.ReflTransGen.head (ExecStep.claim _ 0 rfl (by decide)) ?_
  refine Relation.ReflTransGen.head (ExecStep.resolve _ 0 0 () 7 rfl rfl rfl) ?_
  refine Relation.ReflTransGen.head (ExecStep.finish _ 0 rfl (by decide)) ?_
  exact Relation.ReflTransGen.refl

-- ### Per-chunk rendering with one retry (src/pipeline/extract.ts, renderPageRange)

/-- The per-chunk result of `renderPageRange`: page numbers reported as
succeeded and as failed. -/
structure RangeResult where
  success : List Nat
  failed : List Nat
deriving Repr, DecidableEq

/-- `renderPageRange` from `src/pipeline/extract.ts`.  The external
rasterizer invocation is modelled by `exitCode`, the exit code of the attempt
with the given retry count.  On non-zero exit, the function recurses once
with `retryCount + 1`; if the retry also exits non-zero, every page in
`firstPage..lastPage` is reported failed.  The function never inspects which
page files were actually produced. -/
def renderPageRange (exitCode : Nat → Int) (firstPage lastPage : Nat)
    (retryCount : Nat) : RangeResult :=
  if exitCode retryCount ≠ 0 then
    if _h : retryCount < 1 then
      renderPageRange exitCode firstPage lastPage (retryCount + 1)
    else
      { success := [], failed := List.range' firstPage (lastPage - firstPage + 1) }
  else
    { success := List.range' firstPage (lastPage - firstPage + 1), failed := [] }
termination_by 2 - retryCount
decreasing_by omega

/-- The success/error split loop of `renderPdf`: page `i` becomes a
`PageError` with message "render failed" when some chunk reported it failed,
otherwise it is queued as a rendered page file. -/
def splitRenderedGo (allFailed : List Nat) : List Nat → List Nat × List PageError
  | [] => ([], [])
  | i :: rest =>
      let prev := splitRenderedGo allFailed rest
      if allFailed.contains i then (prev.1, ⟨i, "render failed"⟩ :: prev.2)
      else (i :: prev.1, prev.2)

/-- The loop `for i in 1..pageCount` of `renderPdf` splitting pages into
rendered files and render errors. -/
def splitRendered (allFailed : List Nat) (pageCount : Nat) :
    List Nat × List PageError :=
  splitRenderedGo allFailed (List.range' 1 pageCount)

theorem splitRenderedGo_failed (allFailed : List Nat) (p : Nat)
    (hp : allFailed.contains p = true) :
    ∀ l : List Nat,
      (p ∈ l → PageError.mk p "render failed" ∈ (splitRenderedGo allFailed l).2) ∧
        p ∉ (splitRenderedGo allFailed l).1 := by
  intro l
  induction l with
  | nil => exact ⟨by simp, by simp [splitRenderedGo]⟩
  | cons i rest ih =>
      constructor
      · intro hmem
        rcases List.mem_cons.1 hmem with heq | hmem'
        · subst heq
          have hp2 : p ∈ allFailed := by simpa using hp
          simp [splitRenderedGo, hp2]
        · have hin := ih.1 hmem'
          simp only [splitRenderedGo]
          by_cases hc : i ∈ allFailed <;> simp [hc, hin]
      · simp only [splitRenderedGo]
        by_cases hc : i ∈ allFailed
        · simpa [hc] using ih.2
        · have hpi : p ≠ i := by
            intro he
            subst he
            exact hc (by simpa using hp)
          simp [hc, List.mem_cons, hpi]
          exact ih.2

theorem renderPageRange_eval (e : Nat → Int) (f l : Nat) :
    renderPageRange e f l 0
      = if e 0 ≠ 0 then
          if e 1 ≠ 0 then ⟨[], List.range' f (l - f + 1)⟩
          else ⟨List.range' f (l - f + 1), []⟩
        else ⟨List.range' f (l - f + 1), []⟩ := by
  by_cases h0 : e 0 = 0
  · unfold renderPageRange
    simp [h0]
  · by_cases h1 : e 1 = 0
    · unfold renderPageRange
      unfold renderPageRange
      simp [h0, h1]
    · unfold renderPageRange
      unfold renderPageRange
      simp [h0, h1]

/-- C5: a non-zero rasterizer exit for a chunk is retried exactly once — if
the retry exits zero the whole chunk is reported succeeded, if the retry also
exits non-zero every page in `firstPage..lastPage` is reported failed with an
empty success set (no partial-chunk success, whatever files were produced:
the function never inspects them, so its outcome depends only on the first
two attempts); and `renderPdf` records every failed page as a `PageError`
with message "render failed", absent from the rendered-file list. -/
theorem renderPageRange_retry_spec (exitCode : Nat → Int)
    (firstPage lastPage : Nat) :
    (exitCode 0 ≠ 0 → exitCode 1 ≠ 0 →
      renderPageRange exitCode firstPage lastPage 0
        = ⟨[], List.range' firstPage (lastPage - firstPage + 1)⟩) ∧
    (exitCode 0 ≠ 0 → exitCode 1 = 0 →
      renderPageRange exitCode firstPage lastPage 0
        = ⟨List.range' firstPage (lastPage - firstPage + 1), []⟩) ∧
    (∀ exit2 : Nat → Int, exit2 0 = exitCode 0 → exit2 1 = exitCode 1 →
      renderPageRange exit2 firstPage lastPage 0
        = renderPageRange exitCode firstPage lastPage 0) ∧
    (∀ (allFailed : List Nat) (pageCount p : Nat), allFailed.contains p = true →
      p ∈ List.range' 1 pageCount →
      PageError.mk p "render failed" ∈ (splitRendered allFailed pageCount).2 ∧
        p ∉ (splitRendered allFailed pageCount).1) := by
  refine ⟨?_, ?_, ?_, ?_⟩
  · intro h0 h1
    rw [renderPageRange_eval]
    simp [h0, h1]
  · intro h0 h1
    rw [renderPageRange_eval]
    simp [h0, h1]
  · intro exit2 h0 h1
    rw [renderPageRange_eval, renderPageRange_eval, h0, h1]
  · intro allFailed pageCount p hp hmem
    have h := splitRenderedGo_failed allFailed p hp (List.range' 1 pageCount)
    exact ⟨h.1 hmem, h.2⟩

/-- Witness for C5: a rasterizer failing both attempts on chunk `[5,7]` marks
exactly pages 5, 6, 7 failed and none succeeded. -/
theorem renderPageRange_retry_spec_witness :
    ((fun n : Nat => if n < 2 then (1 : Int) else 0) 0 ≠ 0) ∧
    ((fun n : Nat => if n < 2 then (1 : Int) else 0) 1 ≠ 0) ∧
    renderPageRange (fun n => if n < 2 then (1 : Int) else 0) 5 7 0
      = ⟨[], [5, 6, 7]⟩ :=
  ⟨by decide, by decide,
    ((renderPageRange_retry_spec (fun n => if n < 2 then (1 : Int) else 0) 5 7).1
      (by decide) (by decide)).trans (by rfl)⟩

-- ### Dimension prediction (src/pipeline/extract.ts, ptsToPixels / renderPdf)

/-- `ImageDimensions` from `src/pipeline/image-dimensions.ts`. -/
structure ImageDimensions where
  width : Nat
  height : Nat
deriving Repr, DecidableEq

/-- `ptsToPixels` from `src/pipeline/extract.ts`:
`Math.ceil(pts * dpi / 72)`.  Page sizes in points come from decimal pdfinfo
output, modelled as rationals. -/
def ptsToPixels (pts : ℚ) (dpi : Nat) : Int :=
  ⌈pts * dpi / 72⌉

/-- The dimension-prediction decision of `renderPdf`: a prediction exists
only when pdfinfo reported a page size and at least two pages rendered
successfully, and it is kept only when the measured dimensions of the first
and the last rendered page file both match the prediction exactly on both
axes. -/
def decidePredictedDims (pageSizePts : Option (ℚ × ℚ)) (dpi : Nat)
    (pageFiles : List Nat) (measure : Nat → ImageDimensions) :
    Option (Int × Int) :=
  match pageSizePts with
  | none => none
  | some (w, h) =>
    if 2 ≤ pageFiles.length then
      match pageFiles[0]?, pageFiles[pageFiles.length - 1]? with
      | some firstFile, some lastFile =>
        let predicted := (ptsToPixels w dpi, ptsToPixels h dpi)
        if ((measure firstFile).width : Int) = predicted.1 ∧
            ((measure firstFile).height : Int) = predicted.2 ∧
            ((measure lastFile).width : Int) = predicted.1 ∧
            ((measure lastFile).height : Int) = predicted.2
        then some predicted else none
      | _, _ => none
    else none

/-- The page-assembly step of `renderPdf`: with a kept prediction every page
gets the predicted dimensions with no further measurement; otherwise every
page file is measured individually (`measureF`, `none` = read failure) and a
failed read becomes a `PageError` "failed to read output". -/
def assignDims (fileName : Nat → String) (pageFiles : List Nat)
    (predictedDims : Option (Int × Int))
    (measureF : Nat → Option ImageDimensions) :
    List PageInfo × List PageError :=
  match predictedDims with
  | some d =>
      (pageFiles.map (fun i =>
        { index := i, file := fileName i, width := d.1, height := d.2 }), [])
  | none =>
      pageFiles.foldr
        (fun i acc =>
          match measureF i with
          | some dims =>
              ({ index := i, file := fileName i, width := (dims.width : Int),
                 height := (dims.height : Int) } :: acc.1, acc.2)
          | none => (acc.1, ⟨i, "failed to read output"⟩ :: acc.2))
        ([], [])

/-- The dimension-acquisition phase of `renderPdf`, composing the spot-check
decision with page assembly. -/
def renderPdfDims (pageSizePts : Option (ℚ × ℚ)) (dpi : Nat)
    (fileName : Nat → String) (pageFiles : List Nat)
    (measure : Nat → ImageDimensions)
    (measureF : Nat → Option ImageDimensions) :
    List PageInfo × List PageError :=
  assignDims fileName pageFiles
    (decidePredictedDims pageSizePts dpi pageFiles measure) measureF

theorem assignDims_none_mem (fileName : Nat → String)
    (measureF : Nat → Option ImageDimensions) :
    ∀ (files : List Nat) (i : Nat), i ∈ files →
      (∃ dims, measureF i = some dims ∧
        ({ index := i, file := fileName i, width := (dims.width : Int),
           height := (dims.height : Int) } : PageInfo)
          ∈ (assignDims fileName files none measureF).1) ∨
      (measureF i = none ∧
        (⟨i, "failed to read output"⟩ : PageError)
          ∈ (assignDims fileName files none measureF).2) := by
  intro files
  induction files with
  | nil => intro i hi; cases hi
  | cons j rest ih =>
      intro i hi
      rcases List.mem_cons.1 hi with heq | hmem
      · subst heq
        rcases hm : measureF i with _ | dims
        · refine Or.inr ⟨rfl, ?_⟩
          simp only [assignDims, List.foldr_cons, hm]
          exact List.mem_cons_self _ _
        · refine Or.inl ⟨dims, rfl, ?_⟩
          simp only [assignDims, List.foldr_cons, hm]
          exact List.mem_cons_self _ _
      · rcases ih i hmem with ⟨dims, hm, hmem'⟩ | ⟨hm, hmem'⟩
        · refine Or.inl ⟨dims, hm, ?_⟩
          simp only [assignDims, List.foldr_cons]
          rcases hmj : measureF j with _ | dimsj
          · simpa [assignDims] using hmem'
          · simp only []
            exact List.mem_cons_of_mem _ (by simpa [assignDims] using hmem')
        · refine Or.inr ⟨hm, ?_⟩
          simp only [assignDims, List.foldr_cons]
          rcases hmj : measureF j with _ | dimsj
          · exact List.mem_cons_of_mem _ (by simpa [assignDims] using hmem')
          · simpa [assignDims] using hmem'

/-- C4: in `renderPdf`, the prediction `ceil(points * dpi / 72)` (computed
per axis) is kept if and only if pdfinfo reported a page size in points, at
least two pages rendered successfully, and both the first and the last
successfully rendered page measure exactly the predicted width and height;
when kept it is applied to every page with no per-page measurement (the
output does not depend on the per-page measurement at all), and otherwise
every page is measured individually, a read failure becoming a per-page
error. -/
theorem renderPdf_prediction_spec (pageSizePts : Option (ℚ × ℚ)) (dpi : Nat)
    (pageFiles : List Nat) (measure : Nat → ImageDimensions)
    (fileName : Nat → String) (measureF : Nat → Option ImageDimensions) :
    (∀ d : Int × Int,
      decidePredictedDims pageSizePts dpi pageFiles measure = some d ↔
        (∃ (w h : ℚ) (firstFile lastFile : Nat),
          pageSizePts = some (w, h) ∧ 2 ≤ pageFiles.length ∧
          d = (ptsToPixels w dpi, ptsToPixels h dpi) ∧
          pageFiles[0]? = some firstFile ∧
          pageFiles[pageFiles.length - 1]? = some lastFile ∧
          ((measure firstFile).width : Int) = d.1 ∧
          ((measure firstFile).height : Int) = d.2 ∧
          ((measure lastFile).width : Int) = d.1 ∧
          ((measure lastFile).height : Int) = d.2)) ∧
    (∀ d : Int × Int,
      decidePredictedDims pageSizePts dpi pageFiles measure = some d →
        (∀ p ∈ (renderPdfDims pageSizePts dpi fileName pageFiles measure measureF).1,
          p.width = d.1 ∧ p.height = d.2) ∧
        (∀ measureF2 : Nat → Option ImageDimensions,
          renderPdfDims pageSizePts dpi fileName pageFiles measure measureF
            = renderPdfDims pageSizePts dpi fileName pageFiles measure measureF2)) ∧
    (decidePredictedDims pageSizePts dpi pageFiles measure = none →
      ∀ i ∈ pageFiles,
        (∃ dims, measureF i = some dims ∧
          ({ index := i, file := fileName i, width := (dims.width : Int),
             height := (dims.height : Int) } : PageInfo)
            ∈ (renderPdfDims pageSizePts dpi fileName pageFiles measure measureF).1) ∨
        (measureF i = none ∧
          (⟨i, "failed to read output"⟩ : PageError)
            ∈ (renderPdfDims pageSizePts dpi fileName pageFiles measure measureF).2)) := by
  refine ⟨?_, ?_, ?_⟩
  · intro d
    constructor
    · intro hd
      rcases pageSizePts with _ | ⟨w, h⟩
      · simp [decidePredictedDims] at hd
      · simp only [decidePredictedDims] at hd
        by_cases hlen : 2 ≤ pageFiles.length
        · rw [if_pos hlen] at hd
          rcases h0 : pageFiles[0]? with _ | firstFile
          · rw [h0] at hd; cases hd
          · rcases hl : pageFiles[pageFiles.length - 1]? with _ | lastFile
            · rw [h0, hl] at hd; cases hd
            · rw [h0, hl] at hd
              simp only [] at hd
              split at hd
              · rename_i hcond
                obtain ⟨e1, e2, e3, e4⟩ := hcond
                have hdp : d = (ptsToPixels w dpi, ptsToPixels h dpi) :=
                  (Option.some.inj hd).symm
                subst hdp
                exact ⟨w, h, firstFile, lastFile, rfl, hlen, rfl, rfl, rfl,
                  e1, e2, e3, e4⟩
              · cases hd
        · rw [if_neg hlen] at hd; cases hd
    · rintro ⟨w, h, firstFile, lastFile, hps, hlen, hdp, h0, hl, e1, e2, e3, e4⟩
      subst hps
      subst hdp
      simp only [decidePredictedDims, if_pos hlen, h0, hl]
      rw [if_pos ⟨e1, e2, e3, e4⟩]
  · intro d hd
    constructor
    · intro p hp
      simp only [renderPdfDims, hd, assignDims] at hp
      obtain ⟨i, _, hpi⟩ := List.mem_map.1 hp
      rw [← hpi]
      exact ⟨rfl, rfl⟩
    · intro measureF2
      simp only [renderPdfDims, hd, assignDims]
  · intro hnone i hi
    simp only [renderPdfDims, hnone]
    exact assignDims_none_mem fileName measureF pageFiles i hi

/-- Witness for C4: a 612x792 pts page at 200 dpi predicts 1700x2200 pixels,
and a spot-check measuring exactly 1700x2200 on the first and last of three
pages keeps the prediction. -/
theorem renderPdf_prediction_spec_witness :
    decidePredictedDims (some (612, 792)) 200 [1, 2, 3]
        (fun _ => ⟨1700, 2200⟩)
      = some (1700, 2200) :=
  ((renderPdf_prediction_spec (some (612, 792)) 200 [1, 2, 3]
      (fun _ => ⟨1700, 2200⟩) (fun _ => "") (fun _ => none)).1
    (1700, 2200)).mpr
    ⟨612, 792, 1, 3, rfl, by decide, by norm_num [ptsToPixels], rfl, rfl,
      by norm_num, by norm_num, by norm_num, by norm_num⟩

-- ### Image header parsing (src/pipeline/image-dimensions.ts)

/-- The 8-byte PNG signature checked at file start. -/
def pngSignature : List Nat := [0x89, 0x50, 0x4e, 0x47, 0x0d, 0x0a, 0x1a, 0x0a]

/-- `buf.readUInt32BE(off)`: the big-endian 32-bit integer at a byte offset. -/
def readUInt32BE (bytes : List Nat) (off : Nat) : Nat :=
  (bytes[off]?.getD 0) * 2 ^ 24 + (bytes[off + 1]?.getD 0) * 2 ^ 16 +
    (bytes[off + 2]?.getD 0) * 2 ^ 8 + (bytes[off + 3]?.getD 0)

/-- `buf.readUInt16BE(off)`: the big-endian 16-bit integer at a byte offset. -/
def readUInt16BE (bytes : List Nat) (off : Nat) : Nat :=
  (bytes[off]?.getD 0) * 2 ^ 8 + (bytes[off + 1]?.getD 0)

/-- `readPngDimensions` from `src/pipeline/image-dimensions.ts`: read only
the first 24 bytes of the file; fewer than 24 bytes available or a wrong
8-byte signature yields `none`; otherwise width and height are the 32-bit
big-endian integers at offsets 16 and 20. -/
def readPngDimensions (fileBytes : List Nat) : Option ImageDimensions :=
  let buf := fileBytes.take 24
  if buf.length < 24 then none
  else if buf.take 8 ≠ pngSignature then none
  else some ⟨readUInt32BE buf 16, readUInt32BE buf 20⟩

/-- The marker-scan loop of `readJpegDimensions`. -/
def jpegScan (buf : List Nat) (bytesRead : Nat) (offset : Nat) :
    Option ImageDimensions :=
  if offset + 9 < bytesRead then
    if buf[offset]?.getD 0 ≠ 0xff then none
    else
      let marker := buf[offset + 1]?.getD 0
      if marker = 0xff then jpegScan buf bytesRead (offset + 1)
      else if marker = 0xc0 ∨ marker = 0xc2 then
        some ⟨readUInt16BE buf (offset + 7), readUInt16BE buf (offset + 5)⟩
      else if marker = 0xda then none
      else jpegScan buf bytesRead (offset + 2 + readUInt16BE buf (offset + 2))
  else none
termination_by bytesRead - offset
decreasing_by all_goals omega

/-- `readJpegDimensions` from `src/pipeline/image-dimensions.ts`: scan at
most the first 64 KB for a start-of-frame marker. -/
def readJpegDimensions (fileBytes : List Nat) : Option ImageDimensions :=
  let buf := fileBytes.take 65536
  if buf.length < 4 then none
  else if readUInt16BE buf 0 ≠ 0xffd8 then none
  else jpegScan buf buf.length 2

/-- `readDimensionsViaIdentify`: the external inspection tool, modelled by
its exit code and the numbers parsed from its `width height` output (`none` =
not a number, as produced by `Number(...)` on malformed text).  A non-zero
exit yields `0x0` rather than an error. -/
def readDimensionsViaIdentify (exitCode : Int)
    (stdoutNums : List (Option Nat)) : ImageDimensions :=
  if exitCode ≠ 0 then ⟨0, 0⟩
  else ⟨(stdoutNums[0]?.join).getD 0, (stdoutNums[1]?.join).getD 0⟩

/-- `getImageDimensions` from `src/pipeline/image-dimensions.ts`: dispatch on
the lower-cased file extension to a binary header parse, falling back to the
external inspection tool when the parse yields nothing. -/
def getImageDimensions (path : String) (fileBytes : List Nat)
    (identifyExit : Int) (identifyNums : List (Option Nat)) : ImageDimensions :=
  let lower := path.toLower
  if lower.endsWith ".png" then
    match readPngDimensions fileBytes with
    | some dims => dims
    | none => readDimensionsViaIdentify identifyExit identifyNums
  else if lower.endsWith ".jpg" || lower.endsWith ".jpeg" then
    match readJpegDimensions fileBytes with
    | some dims => dims
    | none => readDimensionsViaIdentify identifyExit identifyNums
  else readDimensionsViaIdentify identifyExit identifyNums

theorem readUInt32BE_take (l : List Nat) (off : Nat) (hoff : off + 3 < 24) :
    readUInt32BE (l.take 24) off = readUInt32BE l off := by
  unfold readUInt32BE
  rw [List.getElem?_take_of_lt (by omega), List.getElem?_take_of_lt (by omega),
    List.getElem?_take_of_lt (by omega), List.getElem?_take_of_lt (by omega)]

/-- C9: PNG dimension parsing on a file whose first 24 bytes are available
and begin with the PNG signature returns the 32-bit big-endian integers at
offsets 16 and 20 as width and height; it inspects only the first 24 bytes;
a non-PNG signature yields no result, in which case `getImageDimensions` on a
`.png` name falls back to the external inspection tool; and a non-zero exit
of that tool yields `0x0` rather than an error. -/
theorem readPngDimensions_spec :
    (∀ fileBytes : List Nat, 24 ≤ fileBytes.length →
      fileBytes.take 8 = pngSignature →
      readPngDimensions fileBytes
        = some ⟨readUInt32BE fileBytes 16, readUInt32BE fileBytes 20⟩) ∧
    (∀ fileBytes : List Nat,
      readPngDimensions fileBytes = readPngDimensions (fileBytes.take 24)) ∧
    (∀ fileBytes : List Nat, fileBytes.take 8 ≠ pngSignature →
      readPngDimensions fileBytes = none) ∧
    (∀ (path : String) (fileBytes : List Nat) (identifyExit : Int)
        (identifyNums : List (Option Nat)),
      path.toLower.endsWith ".png" = true →
      readPngDimensions fileBytes = none →
      getImageDimensions path fileBytes identifyExit identifyNums
        = readDimensionsViaIdentify identifyExit identifyNums) ∧
    (∀ (identifyExit : Int) (identifyNums : List (Option Nat)),
      identifyExit ≠ 0 →
      readDimensionsViaIdentify identifyExit identifyNums = ⟨0, 0⟩) := by
  have htake8 : ∀ l : List Nat, (l.take 24).take 8 = l.take 8 := by
    intro l
    rw [List.take_take]
    norm_num
  refine ⟨?_, ?_, ?_, ?_, ?_⟩
  · intro fileBytes hlen hsig
    have hlen24 : (fileBytes.take 24).length = 24 := by
      rw [List.length_take]
      omega
    simp only [readPngDimensions]
    rw [if_neg (by omega), if_neg (by rw [htake8, hsig]; exact fun h => h rfl)]
    rw [readUInt32BE_take _ _ (by omega), readUInt32BE_take _ _ (by omega)]
  · intro fileBytes
    simp only [readPngDimensions, List.take_take]
    norm_num
  · intro fileBytes hsig
    simp only [readPngDimensions]
    by_cases hlen : (fileBytes.take 24).length < 24
    · rw [if_pos hlen]
    · rw [if_neg hlen, if_pos (by rw [htake8]; exact hsig)]
  · intro path fileBytes identifyExit identifyNums hpath hnone
    simp only [getImageDimensions, hpath, if_true, hnone]
  · intro identifyExit identifyNums hexit
    simp only [readDimensionsViaIdentify, if_pos hexit]

/-- Witness for C9: a 24-byte PNG header encoding width 256 and height 512,
and a failing inspection tool returning `0x0`. -/
theorem readPngDimensions_spec_witness :
    readPngDimensions
        [0x89, 0x50, 0x4e, 0x47, 0x0d, 0x0a, 0x1a, 0x0a,
         0, 0, 0, 13, 73, 72, 68, 82,
         0, 0, 1, 0, 0, 0, 2, 0]
      = some ⟨256, 512⟩ ∧
    readDimensionsViaIdentify 1 [some 640, some 480] = ⟨0, 0⟩ := by
  constructor
  · have h := readPngDimensions_spec.1
      [0x89, 0x50, 0x4e, 0x47, 0x0d, 0x0a, 0x1a, 0x0a,
       0, 0, 0, 13, 73, 72, 68, 82,
       0, 0, 1, 0, 0, 0, 2, 0]
      (by decide) (by decide)
    rw [h]
    decide
  · exact readPngDimensions_spec.2.2.2.2 1 [some 640, some 480] (by decide)

-- ### Region extraction (src/pipeline/extract.ts, extractPage / extractPages)

/-- The region loop of `extractPage`.  The fallible external calls are
modelled by their outcomes per loop position: `crop` is the `magick` crop of
the region at that position, `ocr` the text-generation call on a text crop;
`imgRef` renders the placeholder token embedded for an image crop.  No call
is wrapped in a try/catch, so the first failure aborts the loop.  (The
best-effort deletion of the temporary text crop is caught and ignored by the
source, hence not modelled as fallible.)  Accumulates the markdown parts and
the image-crop counters in region order. -/
def extractPageLoop (imgRef : Nat → String) (crop : Nat → Except String Unit)
    (ocr : Nat → Except String String) :
    List Region → Nat → Nat → Except String (List String × List Nat)
  | [], _, _ => Except.ok ([], [])
  | region :: rest, pos, imgCounter =>
      if region.kind = RegionKind.image then
        match crop pos with
        | Except.error e => Except.error e
        | Except.ok _ =>
            match extractPageLoop imgRef crop ocr rest (pos + 1) (imgCounter + 1) with
            | Except.error e => Except.error e
            | Except.ok out =>
                Except.ok (imgRef (imgCounter + 1) :: out.1, (imgCounter + 1) :: out.2)
      else
        match crop pos with
        | Except.error e => Except.error e
        | Except.ok _ =>
            match ocr pos with
            | Except.error e => Except.error e
            | Except.ok text =>
                match extractPageLoop imgRef crop ocr rest (pos + 1) imgCounter with
                | Except.error e => Except.error e
                | Except.ok out => Except.ok (text :: out.1, out.2)

/-- `extractPage` from `src/pipeline/extract.ts`: chop the page (a failure of
the chop itself is a thrown error), run the region loop, and reassemble the
page text by joining the parts with a double line break. -/
def extractPage (chopResult : Except String (List Region))
    (imgRef : Nat → String) (crop : Nat → Except String Unit)
    (ocr : Nat → Except String String) :
    Except String (String × List Nat) :=
  match chopResult with
  | Except.error e => Except.error e
  | Except.ok regions =>
      match extractPageLoop imgRef crop ocr regions 0 0 with
      | Except.error e => Except.error e
      | Except.ok out => Except.ok (String.intercalate "\n\n" out.1, out.2)

/-- `extractPages` from `src/pipeline/extract.ts`: per page, the whole
`extractPage` call is wrapped in a try/catch; a success keeps the page, a
failure records one `PageError` for the page and drops it from the success
list. -/
def extractPages (pages : List PageInfo)
    (outcome : Nat → Except String (String × List Nat)) :
    List PageInfo × List PageError :=
  pages.foldr
    (fun page acc =>
      match outcome page.index with
      | Except.ok _ => (page :: acc.1, acc.2)
      | Except.error e =>
          (acc.1, ⟨page.index, "text extraction failed: " ++ e⟩ :: acc.2))
    ([], [])

theorem extractPageLoop_ok_iff (imgRef : Nat → String)
    (crop : Nat → Except String Unit) (ocr : Nat → Except String String) :
    ∀ (regions : List Region) (pos imgCounter : Nat),
      (∃ out, extractPageLoop imgRef crop ocr regions pos imgCounter
          = Except.ok out) ↔
        (∀ (j : Nat) (r : Region), regions[j]? = some r →
          (∃ u, crop (pos + j) = Except.ok u) ∧
          (r.kind = RegionKind.text → ∃ t, ocr (pos + j) = Except.ok t)) := by
  intro regions
  induction regions with
  | nil =>
      intro pos imgCounter
      constructor
      · intro _ j r hr
        simp at hr
      · intro _
        exact ⟨([], []), rfl⟩
  | cons region rest ih =>
      intro pos imgCounter
      by_cases hk : region.kind = RegionKind.image
      · constructor
        · intro ⟨out, hout⟩ j r hr
          simp only [extractPageLoop, if_pos hk] at hout
          rcases hc : crop pos with e | u
          · rw [hc] at hout; cases hout
          · rw [hc] at hout
            rcases hrest : extractPageLoop imgRef crop ocr rest (pos + 1)
                (imgCounter + 1) with e | out'
            · rw [hrest] at hout; cases hout
            · match j with
              | 0 =>
                  simp only [List.getElem?_cons_zero, Option.some.injEq] at hr
                  subst hr
                  refine ⟨⟨u, by simpa using hc⟩, ?_⟩
                  intro ht
                  rw [hk] at ht
                  cases ht
              | j + 1 =>
                  simp only [List.getElem?_cons_succ] at hr
                  have := (ih (pos + 1) (imgCounter + 1)).1 ⟨out', hrest⟩ j r hr
                  have hx : pos + 1 + j = pos + (j + 1) := by omega
                  rwa [hx] at this
        · intro hall
          have h0 := hall 0 region (by simp)
          obtain ⟨⟨u, hu⟩, _⟩ := h0
          have hrest := (ih (pos + 1) (imgCounter + 1)).2 (by
            intro j r hr
            have := hall (j + 1) r (by simpa using hr)
            have hx : pos + (j + 1) = pos + 1 + j := by omega
            rwa [hx] at this)
          obtain ⟨out', hout'⟩ := hrest
          refine ⟨(imgRef (imgCounter + 1) :: out'.1, (imgCounter + 1) :: out'.2), ?_⟩
          simp only [extractPageLoop, if_pos hk]
          rw [show crop pos = Except.ok u by simpa using hu, hout']
      · constructor
        · intro ⟨out, hout⟩ j r hr
          simp only [extractPageLoop, if_neg hk] at hout
          rcases hc : crop pos with e | u
          · rw [hc] at hout; cases hout
          · rw [hc] at hout
            rcases ho : ocr pos with e | text
            · rw [ho] at hout; cases hout
            · rw [ho] at hout
              rcases hrest : extractPageLoop imgRef crop ocr rest (pos + 1)
                  imgCounter with e | out'
              · rw [hrest] at hout; cases hout
              · match j with
                | 0 =>
                    simp only [List.getElem?_cons_zero, Option.some.injEq] at hr
                    subst hr
                    exact ⟨⟨u, by simpa using hc⟩,
                      fun _ => ⟨text, by simpa using ho⟩⟩
                | j + 1 =>
                    simp only [List.getElem?_cons_succ] at hr
                    have := (ih (pos + 1) imgCounter).1 ⟨out', hrest⟩ j r hr
                    have hx : pos + 1 + j = pos + (j + 1) := by omega
                    rwa [hx] at this
        · intro hall
          have hkt : region.kind = RegionKind.text := by
            cases hreg : region.kind
            · rfl
            · exact absurd hreg hk
          have h0 := hall 0 region (by simp)
          obtain ⟨⟨u, hu⟩, hocr⟩ := h0
          obtain ⟨text, htext⟩ := hocr hkt
          have hrest := (ih (pos + 1) imgCounter).2 (by
            intro j r hr
            have := hall (j + 1) r (by simpa using hr)
            have hx : pos + (j + 1) = pos + 1 + j := by omega
            rwa [hx] at this)
          obtain ⟨out', hout'⟩ := hrest
          refine ⟨(text :: out'.1, out'.2), ?_⟩
          simp only [extractPageLoop, if_neg hk]
          rw [show crop pos = Except.ok u by simpa using hu,
            show ocr pos = Except.ok text by simpa using htext, hout']

/-- Counterexample to C8 as stated: a page whose layout chop succeeds with
two text regions, whose first region extracts the text "hello" successfully,
and whose second region's crop fails.  `extractPage` has no per-region
try/catch, so the whole page extraction throws: the page becomes one
`PageError` and the already-gathered "hello" is discarded — it appears in no
output, contradicting the claim that results gathered for other regions are
kept. -/
theorem extractPage_region_failure_counterexample :
    extractPage
        (Except.ok [⟨0, 0, 10, 10, RegionKind.text⟩,
          ⟨0, 200, 10, 10, RegionKind.text⟩])
        (fun _ => "")
        (fun pos => if pos = 0 then Except.ok () else Except.error "crop failed")
        (fun _ => Except.ok "hello")
      = Except.error "crop failed" ∧
    extractPages [⟨1, "page-1.webp", 100, 100⟩]
        (fun _ =>
          extractPage
            (Except.ok [⟨0, 0, 10, 10, RegionKind.text⟩,
              ⟨0, 200, 10, 10, RegionKind.text⟩])
            (fun _ => "")
            (fun pos =>
              if pos = 0 then Except.ok () else Except.error "crop failed")
            (fun _ => Except.ok "hello"))
      = ([], [⟨1, "text extraction failed: crop failed"⟩]) := by
  constructor
  · rfl
  · rfl

/-- C8 amended: a page's extraction fails when the layout chop fails or when
any single region's crop or text extraction fails — there is no per-region
recovery: the first region failure aborts the whole page, the page is
reported as exactly one `PageError` ("text extraction failed: ..."), it is
dropped from the success list, and the results gathered for its other
regions are discarded with it; a page succeeds exactly when the chop and
every region operation succeed. -/
theorem extractPage_abort_spec (imgRef : Nat → String)
    (crop : Nat → Except String Unit) (ocr : Nat → Except String String) :
    (∀ e : String, extractPage (Except.error e) imgRef crop ocr
        = Except.error e) ∧
    (∀ regions : List Region,
      (∃ out, extractPage (Except.ok regions) imgRef crop ocr = Except.ok out) ↔
        (∀ (j : Nat) (r : Region), regions[j]? = some r →
          (∃ u, crop j = Except.ok u) ∧
          (r.kind = RegionKind.text → ∃ t, ocr j = Except.ok t))) ∧
    (∀ (pages : List PageInfo) (outcome : Nat → Except String (String × List Nat))
        (page : PageInfo) (e : String), page ∈ pages →
      outcome page.index = Except.error e →
      (⟨page.index, "text extraction failed: " ++ e⟩ : PageError)
        ∈ (extractPages pages outcome).2) ∧
    (∀ (pages : List PageInfo) (outcome : Nat → Except String (String × List Nat))
        (page : PageInfo), page ∈ pages →
      (∃ out, outcome page.index = Except.ok out) →
      page ∈ (extractPages pages outcome).1) := by
  refine ⟨fun e => rfl, ?_, ?_, ?_⟩
  · intro regions
    have hloop := extractPageLoop_ok_iff imgRef crop ocr regions 0 0
    constructor
    · intro ⟨out, hout⟩
      simp only [extractPage] at hout
      rcases hl : extractPageLoop imgRef crop ocr regions 0 0 with e | out'
      · rw [hl] at hout; cases hout
      · have := hloop.1 ⟨out', hl⟩
        simpa using this
    · intro hall
      obtain ⟨out', hout'⟩ := hloop.2 (by simpa using hall)
      exact ⟨(String.intercalate "\n\n" out'.1, out'.2), by
        simp only [extractPage, hout']⟩
  · intro pages outcome page e hmem hout
    induction pages with
    | nil => cases hmem
    | cons q rest ih =>
        rcases List.mem_cons.1 hmem with heq | hmem'
        · subst heq
          simp only [extractPages, List.foldr_cons, hout]
          exact List.mem_cons_self _ _
        · have hin := ih hmem'
          simp only [extractPages, List.foldr_cons]
          rcases hq : outcome q.index with e' | out'
          · simp only []
            exact List.mem_cons_of_mem _ (by simpa [extractPages] using hin)
          · simpa [extractPages] using hin
  · intro pages outcome page hmem hok
    obtain ⟨out, hout⟩ := hok
    induction pages with
    | nil => cases hmem
    | cons q rest ih =>
        rcases List.mem_cons.1 hmem with heq | hmem'
        · subst heq
          simp only [extractPages, List.foldr_cons, hout]
          exact List.mem_cons_self _ _
        · have hin := ih hmem'
          simp only [extractPages, List.foldr_cons]
          rcases hq : outcome q.index with e' | out'
          · simpa [extractPages] using hin
          · simp only []
            exact List.mem_cons_of_mem _ (by simpa [extractPages] using hin)

/-- Witness for the amended C8: a page with one text region whose crop and
extraction succeed is kept; with a failing chop the page is one error. -/
theorem extractPage_abort_spec_witness :
    (∃ out,
      extractPage (Except.ok [⟨0, 0, 10, 10, RegionKind.text⟩]) (fun _ => "")
          (fun _ => Except.ok ()) (fun _ => Except.ok "hello")
        = Except.ok out) ∧
    extractPage (Except.error "chop failed") (fun _ => "")
        (fun _ => Except.ok ()) (fun _ => Except.ok "hello")
      = Except.error "chop failed" := by
  constructor
  · exact ((extractPage_abort_spec (fun _ => "") (fun _ => Except.ok ())
      (fun _ => Except.ok "hello")).2.1 [⟨0, 0, 10, 10, RegionKind.text⟩]).mpr
      (by
        intro j r hr
        exact ⟨⟨(), rfl⟩, fun _ => ⟨"hello", rfl⟩⟩)
  · exact (extractPage_abort_spec (fun _ => "") (fun _ => Except.ok ())
      (fun _ => Except.ok "hello")).1 "chop failed"

-- ### Normalization, manifest assembly (src/pipeline/process.ts, manifest.ts, cli.ts)

/-- `processPages` from `src/pipeline/process.ts`: per page, the magick
cleanup transform followed by a dimension read of the output; failure of
either step (modelled by `outcome` with its failure message) yields one
`PageError` carrying the page's index, success a new `PageInfo` with the
same index, the converted file name and the measured dimensions. -/
def processPages (pages : List PageInfo) (outFile : Nat → String)
    (outcome : Nat → Except String ImageDimensions) :
    List PageInfo × List PageError :=
  pages.foldr
    (fun page acc =>
      match outcome page.index with
      | Except.ok dims =>
          ({ index := page.index, file := outFile page.index,
             width := (dims.width : Int), height := (dims.height : Int) }
              :: acc.1,
            acc.2)
      | Except.error e => (acc.1, ⟨page.index, e⟩ :: acc.2))
    ([], [])

/-- `createManifest` from `src/pipeline/manifest.ts`. -/
def createManifest (source : String) (dpi : Nat) (format : String)
    (pages : List PageInfo) (errors : List PageError)
    (toolchain : Toolchain) : Manifest :=
  { source := source, pageCount := pages.length + errors.length, dpi := dpi,
    format := format, pages := pages, errors := errors,
    toolchain := toolchain }

/-- `renderPdf` as a whole: split rendered/failed pages from the merged chunk
results, then acquire dimensions; render-failure errors precede
dimension-read errors, matching the push order of the source. -/
def renderPdfModel (pageCount : Nat) (allFailed : List Nat)
    (pageSizePts : Option (ℚ × ℚ)) (dpi : Nat) (fileName : Nat → String)
    (measure : Nat → ImageDimensions)
    (measureF : Nat → Option ImageDimensions) :
    List PageInfo × List PageError :=
  let split := splitRendered allFailed pageCount
  let dims := renderPdfDims pageSizePts dpi fileName split.1 measure measureF
  (dims.1, split.2 ++ dims.2)

/-- `main` from `src/cli.ts` past the rendering stage: normalize the rendered
pages, optionally extract text (the API-key gate), concatenate the error
lists of all stages in order, and assemble the manifest. -/
def mainManifest (source : String) (dpi : Nat)
    (renderResult : List PageInfo × List PageError) (toolchain : Toolchain)
    (outFile : Nat → String)
    (procOutcome : Nat → Except String ImageDimensions)
    (extractEnabled : Bool)
    (extractOutcome : Nat → Except String (String × List Nat)) : Manifest :=
  let processed := processPages renderResult.1 outFile procOutcome
  let extracted :=
    if extractEnabled then extractPages processed.1 extractOutcome
    else (processed.1, ([] : List PageError))
  let allErrors := renderResult.2 ++ processed.2 ++ extracted.2
  createManifest source dpi "webp" extracted.1 allErrors toolchain

theorem processPages_perm (pages : List PageInfo) (outFile : Nat → String)
    (outcome : Nat → Except String ImageDimensions) :
    ((processPages pages outFile outcome).1.map PageInfo.index
      ++ (processPages pages outFile outcome).2.map PageError.index).Perm
      (pages.map PageInfo.index) := by
  induction pages with
  | nil => simp [processPages]
  | cons p rest ih =>
      simp only [processPages, List.foldr_cons] at ih ⊢
      rcases hp : outcome p.index with e | dims
      · simp only [List.map_cons]
        refine List.Perm.trans ?_ (ih.cons p.index)
        exact List.perm_middle
      · simp only [List.map_cons, List.cons_append]
        exact ih.cons p.index

theorem extractPages_perm (pages : List PageInfo)
    (outcome : Nat → Except String (String × List Nat)) :
    ((extractPages pages outcome).1.map PageInfo.index
      ++ (extractPages pages outcome).2.map PageError.index).Perm
      (pages.map PageInfo.index) := by
  induction pages with
  | nil => simp [extractPages]
  | cons p rest ih =>
      simp only [extractPages, List.foldr_cons] at ih ⊢
      rcases hp : outcome p.index with e | out
      · simp only [List.map_cons]
        refine List.Perm.trans ?_ (ih.cons p.index)
        exact List.perm_middle
      · simp only [List.map_cons, List.cons_append]
        exact ih.cons p.index

theorem splitRendered_perm (allFailed : List Nat) (pageCount : Nat) :
    ((splitRendered allFailed pageCount).1
      ++ (splitRendered allFailed pageCount).2.map PageError.index).Perm
      (List.range' 1 pageCount) := by
  rw [splitRendered]
  generalize List.range' 1 pageCount = l
  induction l with
  | nil => simp [splitRenderedGo]
  | cons i rest ih =>
      simp only [splitRenderedGo]
      by_cases hc : allFailed.contains i
      · rw [if_pos hc]
        simp only [List.map_cons]
        refine List.Perm.trans ?_ (ih.cons i)
        exact List.perm_middle
      · rw [if_neg hc]
        simp only [List.cons_append]
        exact ih.cons i

theorem assignDims_perm (fileName : Nat → String) (pageFiles : List Nat)
    (predictedDims : Option (Int × Int))
    (measureF : Nat → Option ImageDimensions) :
    ((assignDims fileName pageFiles predictedDims measureF).1.map PageInfo.index
      ++ (assignDims fileName pageFiles predictedDims measureF).2.map
          PageError.index).Perm pageFiles := by
  rcases predictedDims with _ | d
  · induction pageFiles with
    | nil => simp [assignDims]
    | cons i rest ih =>
        simp only [assignDims, List.foldr_cons] at ih ⊢
        rcases hm : measureF i with _ | dims
        · simp only [List.map_cons]
          refine List.Perm.trans ?_ (ih.cons i)
          exact List.perm_middle
        · simp only [List.map_cons, List.cons_append]
          exact ih.cons i
  · simp only [assignDims, List.map_map, List.map_nil, List.append_nil]
    have : (PageInfo.index ∘ fun i =>
        ({ index := i, file := fileName i, width := d.1, height := d.2 }
          : PageInfo)) = id := rfl
    rw [this, List.map_id]

/-- The render stage as a whole partitions `1..pageCount`: each page index
appears exactly once across the rendered page list and the render-stage
error list. -/
theorem renderPdfModel_perm (pageCount : Nat) (allFailed : List Nat)
    (pageSizePts : Option (ℚ × ℚ)) (dpi : Nat) (fileName : Nat → String)
    (measure : Nat → ImageDimensions)
    (measureF : Nat → Option ImageDimensions) :
    ((renderPdfModel pageCount allFailed pageSizePts dpi fileName measure
        measureF).1.map PageInfo.index
      ++ (renderPdfModel pageCount allFailed pageSizePts dpi fileName measure
        measureF).2.map PageError.index).Perm (List.range' 1 pageCount) := by
  have hsplit := splitRendered_perm allFailed pageCount
  have hdims := assignDims_perm fileName (splitRendered allFailed pageCount).1
    (decidePredictedDims pageSizePts dpi (splitRendered allFailed pageCount).1
      measure) measureF
  rw [List.perm_iff_count] at hsplit hdims ⊢
  intro a
  have h1 := hsplit a
  have h2 := hdims a
  simp only [renderPdfModel, renderPdfDims, List.map_append, List.count_append]
    at h1 h2 ⊢
  omega

/-- C2: for every run that reaches manifest creation — any render-stage
result whose page and error indices partition `1..N`, any per-page
normalization outcomes, any extraction outcomes, extraction enabled or
not — the manifest satisfies `pageCount = |pages| + |errors|`; the indices of
`pages` and `errors` together are a permutation of `1..N`; `pageCount = N`;
and every index in `1..pageCount` appears in exactly one of the two lists,
counted once — never duplicated across stage error lists, never both a
success and an error. -/
theorem manifest_partition (source : String) (dpi N : Nat)
    (renderResult : List PageInfo × List PageError) (toolchain : Toolchain)
    (outFile : Nat → String)
    (procOutcome : Nat → Except String ImageDimensions)
    (extractEnabled : Bool)
    (extractOutcome : Nat → Except String (String × List Nat)) (m : Manifest)
    (hm : m = mainManifest source dpi renderResult toolchain outFile
        procOutcome extractEnabled extractOutcome)
    (hrender : (renderResult.1.map PageInfo.index
        ++ renderResult.2.map PageError.index).Perm (List.range' 1 N)) :
    m.pageCount = m.pages.length + m.errors.length ∧
    (m.pages.map PageInfo.index ++ m.errors.map PageError.index).Perm
      (List.range' 1 N) ∧
    m.pageCount = N ∧
    (∀ i ∈ List.range' 1 N,
      (m.pages.map PageInfo.index ++ m.errors.map PageError.index).count i
        = 1) := by
  subst hm
  have hproc := processPages_perm renderResult.1 outFile procOutcome
  have hperm : ((mainManifest source dpi renderResult toolchain outFile
        procOutcome extractEnabled extractOutcome).pages.map PageInfo.index
      ++ (mainManifest source dpi renderResult toolchain outFile procOutcome
        extractEnabled extractOutcome).errors.map PageError.index).Perm
      (List.range' 1 N) := by
    cases extractEnabled with
    | true =>
        have hext := extractPages_perm
          (processPages renderResult.1 outFile procOutcome).1 extractOutcome
        rw [List.perm_iff_count] at hproc hext hrender ⊢
        intro a
        have h1 := hproc a
        have h2 := hext a
        have h3 := hrender a
        simp only [mainManifest, createManifest, if_true, List.map_append,
          List.count_append] at h1 h2 h3 ⊢
        omega
    | false =>
        rw [List.perm_iff_count] at hproc hrender ⊢
        intro a
        have h1 := hproc a
        have h3 := hrender a
        simp only [mainManifest, createManifest, Bool.false_eq_true, if_false,
          List.map_append, List.count_append, List.map_nil, List.count_nil]
          at h1 h3 ⊢
        omega
  refine ⟨rfl, hperm, ?_, ?_⟩
  · have hlen := hperm.length_eq
    simp only [mainManifest, createManifest, List.length_append,
      List.length_map, List.length_range'] at hlen ⊢
    omega
  · intro i hi
    rw [hperm.count_eq]
    have hnd : (List.range' 1 N).Nodup := by simp [List.nodup_range']
    exact List.count_eq_one_of_mem hnd hi

/-- Witness for C2: a two-page run where page 1 renders, normalizes, and then
fails extraction while page 2 fails rendering; the manifest still counts two
pages and partitions the indices. -/
theorem manifest_partition_witness :
    (([⟨1, "page-1.png", 100, 100⟩] : List PageInfo).map PageInfo.index
      ++ ([⟨2, "render failed"⟩] : List PageError).map PageError.index).Perm
      (List.range' 1 2) ∧
    (mainManifest "book.pdf" 200
        ([⟨1, "page-1.png", 100, 100⟩], [⟨2, "render failed"⟩])
        ⟨"pdftoppm", "25.0"⟩ (fun _ => "page-1.webp")
        (fun i => if i = 1 then Except.ok ⟨90, 90⟩ else Except.error "x")
        true (fun _ => Except.error "api failure")).pageCount = 2 :=
  ⟨by decide,
    (manifest_partition "book.pdf" 200 2
      ([⟨1, "page-1.png", 100, 100⟩], [⟨2, "render failed"⟩])
      ⟨"pdftoppm", "25.0"⟩ (fun _ => "page-1.webp")
      (fun i => if i = 1 then Except.ok ⟨90, 90⟩ else Except.error "x")
      true (fun _ => Except.error "api failure") _ rfl (by decide)).2.2.1⟩
